import Mathlib

/-!
# A verification of the `retry` package's retry engine

Shallow embedding of the Go package `retry` (file `retry.go`): the
configuration struct `Tryer`, the delay calculator `Tryer.calcDelay`, and the
attempt loop `Tryer.Try`.

Modelling conventions:

* `time.Duration` (an `int64` count of nanoseconds) is modelled as `Int`;
  the magnitudes involved never approach the 64-bit range, so overflow is
  not modelled.
* Go `float64` arithmetic (`math.Pow`, products, `rand.Float64`) is modelled
  as exact rational arithmetic on `ℚ`.  Go's conversion `time.Duration(x)`
  of a `float64` truncates toward zero and is modelled by `truncQ`.
* The error type is a type parameter `ε`; a Go `error` result is
  `Option ε` (`none` = nil).  The predicate field `IsRetryable` is
  `Option (ε → Bool)` (`none` = nil function pointer).
* The injected random source `Rand` (`func() float64`) is modelled as a
  stream `Nat → ℚ`; a counter of draws made so far is threaded through
  explicitly, so `calcDelay` returns the updated counter together with the
  delay.
* The timer factory (`After`) and the context are external collaborators:
  the outcome of the `select` race in each inter-attempt wait is supplied
  by an oracle `cancel : Nat → Option ε`; `cancel n = some c` means the
  cancellation signal (with cause `c`, Go's `ctx.Err()`) wins the race of
  the wait entered with attempt counter `n`, and `cancel n = none` means
  the timer's channel is read first.
* The `for` loop of `Try` has no bound in general, so it is embedded
  fuel-indexed: `tryGo` returns `none` when the fuel runs out before the
  loop terminates, and `some (outcome, invocations)` otherwise, where
  `invocations` counts the calls made to the operation `f`.
-/

/-- Truncation of a rational toward zero, as in Go's conversion from
`float64` to an integer type such as `time.Duration`. -/
def truncQ (q : ℚ) : Int :=
  if 0 ≤ q then ⌊q⌋ else -⌊-q⌋

/-- The outcome of one `Tryer.Try` run: nil, or one of the three wrapper
error types `MaxTriesError`, `UnretryableError`, `ContextError`, each
wrapping its cause. -/
inductive TryResult (ε : Type) where
  | ok
  | maxTries (e : ε)
  | unretryable (e : ε)
  | contextError (e : ε)
  deriving DecidableEq, Repr

/-- The `Tryer` configuration struct of `retry.go`.  Fields keep the
source's names; durations are nanosecond counts (`Int`), `Scale` is the
`float64` scale factor (`ℚ`), and `Rand` is the injected random source as a
stream of draws. -/
structure Tryer (ε : Type) where
  Max : Int
  Delay : Int
  Jitter : Int
  Scale : ℚ
  MaxDelay : Int
  IsRetryable : Option (ε → Bool)
  Rand : Nat → ℚ

/-- The delay computed before try number `n` (`Tryer.calcDelay` in
`retry.go`), with `k` the number of random draws made so far; returns the
delay and the updated draw count. -/
def Tryer.calcDelay {ε : Type} (tr : Tryer ε) (n : Nat) (k : Nat) : Int × Nat :=
  let delay := tr.Delay
  let delay := if 0 < tr.Scale then truncQ ((delay : ℚ) * (1 + tr.Scale) ^ (n - 1)) else delay
  let delay := if 0 < tr.MaxDelay ∧ tr.MaxDelay < delay then tr.MaxDelay else delay
  let jitter := tr.Jitter
  let jitter := if delay < jitter then delay else jitter
  if 0 < jitter then
    let rand := 2 * tr.Rand k - 1
    let jitter := truncQ ((jitter : ℚ) * rand)
    (delay + jitter, k + 1)
  else
    (delay, k)

/-- The loop body of `Tryer.Try` in `retry.go`, fuel-indexed: `n` is the
attempt counter, `k` the number of random draws made so far.  Returns
`none` when the fuel is exhausted before the loop terminates, otherwise
the result of `Try` together with the number of invocations of `f`. -/
def tryGo {ε : Type} (tr : Tryer ε) (f : Nat → Option ε) (cancel : Nat → Option ε) :
    Nat → Nat → Nat → Option (TryResult ε × Nat)
  | 0, _, _ => none
  | fuel + 1, n, k =>
    match f n with
    | none => some (.ok, n + 1)
    | some err =>
      let n' := n + 1
      if 0 ≤ tr.Max ∧ tr.Max ≤ (n' : Int) then
        some (.maxTries err, n')
      else if tr.IsRetryable.elim false (fun p => !(p err)) then
        some (.unretryable err, n')
      else
        let dk := tr.calcDelay n' k
        match cancel n' with
        | some c => some (.contextError c, n')
        | none => tryGo tr f cancel fuel n' dk.2

/-- The method `Tryer.Try` of `retry.go`: run `f` starting at attempt index
0 with no random draws made yet, under the wait-race oracle `cancel` and
the given fuel. -/
def Tryer.Try {ε : Type} (tr : Tryer ε) (f : Nat → Option ε) (cancel : Nat → Option ε)
    (fuel : Nat) : Option (TryResult ε × Nat) :=
  tryGo tr f cancel fuel 0 0

/-- The policy of the worked delay example: `baseDelay` 100ms, `jitter`
50ms, `scaleFactor` 0.5, no `maxDelay`, and the fixed random sequence
0.1, 0.9, 0.2. -/
def trC5 : Tryer Unit :=
  { Max := 0, Delay := 100000000, Jitter := 50000000, Scale := 1/2, MaxDelay := 0,
    IsRetryable := none,
    Rand := fun k => if k = 0 then 1/10 else if k = 1 then 9/10 else 1/5 }

/-- A policy with jitter larger than the delay and a random draw of 0. -/
def trW6 : Tryer Nat :=
  { Max := 0, Delay := 10, Jitter := 100, Scale := 0, MaxDelay := 0,
    IsRetryable := none, Rand := fun _ => 0 }

/-- A policy whose scaled delay exceeds the ceiling, with a high draw. -/
def trW7 : Tryer Nat :=
  { Max := 0, Delay := 200, Jitter := 50, Scale := 0, MaxDelay := 100,
    IsRetryable := none, Rand := fun _ => 9/10 }

/-- A policy with budget 5 and an all-accepting predicate. -/
def trW2 : Tryer Nat :=
  { Max := 5, Delay := 0, Jitter := 0, Scale := 0, MaxDelay := 0,
    IsRetryable := some (fun _ => true), Rand := fun _ => 0 }

/-- An operation failing on attempts 0 and 1 and succeeding on attempt 2. -/
def fW2 : Nat → Option Nat := fun j => if j < 2 then some j else none

/-- An unlimited policy whose predicate accepts only the error 0. -/
def trW3 : Tryer Nat :=
  { Max := -1, Delay := 0, Jitter := 0, Scale := 0, MaxDelay := 0,
    IsRetryable := some (fun e => e == 0), Rand := fun _ => 0 }

/-- An unlimited policy with no predicate. -/
def trW4 : Tryer Nat :=
  { Max := -1, Delay := 0, Jitter := 0, Scale := 0, MaxDelay := 0,
    IsRetryable := none, Rand := fun _ => 0 }

/-- A race oracle where cancellation wins the first wait with cause 7. -/
def cW4 : Nat → Option Nat := fun m => if m = 1 then some 7 else none

/-- A policy with budget 2 and no predicate. -/
def trW1 : Tryer Nat :=
  { Max := 2, Delay := 0, Jitter := 0, Scale := 0, MaxDelay := 0,
    IsRetryable := none, Rand := fun _ => 0 }

/-- A policy with budget 1 and an all-rejecting predicate: the budget check
fires before the predicate is ever consulted. -/
def trW9 : Tryer Nat :=
  { Max := 1, Delay := 0, Jitter := 0, Scale := 0, MaxDelay := 0,
    IsRetryable := some (fun _ => false), Rand := fun _ => 0 }

/-- An unlimited policy. -/
def trW8 : Tryer Nat :=
  { Max := -1, Delay := 0, Jitter := 0, Scale := 0, MaxDelay := 0,
    IsRetryable := none, Rand := fun _ => 0 }

/-! ## Facts about truncation toward zero -/

theorem truncQ_nonneg {q : ℚ} (h : 0 ≤ q) : 0 ≤ truncQ q := by
  unfold truncQ
  rw [if_pos h]
  exact Int.floor_nonneg.mpr h

theorem le_truncQ {m : ℤ} {q : ℚ} (h : (m : ℚ) ≤ q) : m ≤ truncQ q := by
  unfold truncQ
  split
  · exact Int.le_floor.mpr h
  · have h2 : ⌊-q⌋ ≤ -m := by
      have : -q ≤ ((-m : ℤ) : ℚ) := by push_cast; linarith
      calc ⌊-q⌋ ≤ ⌊((-m : ℤ) : ℚ)⌋ := Int.floor_le_floor this
        _ = -m := Int.floor_intCast _
    omega

theorem truncQ_lt_of_lt {m : ℤ} {q : ℚ} (hm : 0 < m) (h : q < (m : ℚ)) :
    truncQ q < m := by
  unfold truncQ
  split
  · exact Int.floor_lt.mpr h
  · have h2 : 0 ≤ ⌊-q⌋ := by
      rename_i hq
      exact Int.floor_nonneg.mpr (by linarith [not_le.mp hq])
    omega

/-- The post-jitter delay is nonnegative whenever the applied jitter
amplitude `j` is between 0 and the pre-jitter delay `d` and the random
draw lies in [0, 1). -/
theorem delay_add_truncJitter_nonneg (d j : ℤ) (r : ℚ) (hd : 0 ≤ d) (hj : 0 ≤ j)
    (hjd : j ≤ d) (hr0 : 0 ≤ r) :
    0 ≤ d + truncQ ((j : ℚ) * (2 * r - 1)) := by
  have hjq : (0 : ℚ) ≤ (j : ℚ) := by exact_mod_cast hj
  have hlow : ((-j : ℤ) : ℚ) ≤ (j : ℚ) * (2 * r - 1) := by
    push_cast
    nlinarith [hr0, hjq]
  have := le_truncQ hlow
  omega

/-- The truncated signed jitter is strictly below the jitter amplitude `j`
when `j > 0` and the random draw is below 1. -/
theorem truncJitter_lt (j : ℤ) (r : ℚ) (hj : 0 < j) (hr1 : r < 1) :
    truncQ ((j : ℚ) * (2 * r - 1)) < j := by
  apply truncQ_lt_of_lt hj
  have hjq : (0 : ℚ) < (j : ℚ) := by exact_mod_cast hj
  nlinarith


/-! ## Claims about the delay calculator -/

/-- C5: `calcDelay` is a pure function of the attempt count, the policy and
the drawn random value: with baseDelay 100ms, jitter 50ms, scaleFactor 0.5,
no maxDelay and successive random draws 0.1, 0.9, 0.2, the delays before
tries 1, 2 and 3 are exactly 60ms, 190ms and 195ms (in nanoseconds). -/
theorem calcDelay_example :
    trC5.calcDelay 1 0 = (60000000, 1) ∧
    trC5.calcDelay 2 1 = (190000000, 2) ∧
    trC5.calcDelay 3 2 = (195000000, 3) := by
  refine ⟨?_, ?_, ?_⟩ <;> norm_num [Tryer.calcDelay, truncQ, trC5]

/-- C6: for every try number `n ≥ 1`, random draw in [0, 1), and policy
with nonnegative `Delay`, `Jitter` and `MaxDelay`, the computed delay is
nonnegative: the applied jitter amplitude is clamped to the (capped)
pre-jitter delay, so jitter alone can never drive the result negative. -/
theorem calcDelay_nonneg {ε : Type} (tr : Tryer ε) (n k : Nat) (hn : 1 ≤ n)
    (hD : 0 ≤ tr.Delay) (hJ : 0 ≤ tr.Jitter) (hM : 0 ≤ tr.MaxDelay)
    (hr0 : 0 ≤ tr.Rand k) (hr1 : tr.Rand k < 1) :
    0 ≤ (tr.calcDelay n k).1 := by
  simp only [Tryer.calcDelay]
  split_ifs with h1 h2 h3 h4 h5 h6 h7 h8 h9 h10 h11 h12 h13 h14 <;>
    simp only [Prod.fst] <;>
    first
      | omega
      | linarith
      | (apply truncQ_nonneg; positivity)
      | (apply delay_add_truncJitter_nonneg <;>
          first
            | omega
            | linarith
            | exact hr0
            | (apply truncQ_nonneg; positivity))

/-- C7: with a positive `MaxDelay`, the ceiling is applied before jitter:
whenever the final delay exceeds `MaxDelay`, the excess is strictly less
than the effective jitter `min Jitter MaxDelay`. -/
theorem calcDelay_ceiling {ε : Type} (tr : Tryer ε) (n k : Nat) (hn : 1 ≤ n)
    (hD : 0 ≤ tr.Delay) (hJ : 0 ≤ tr.Jitter) (hM : 0 < tr.MaxDelay)
    (hr0 : 0 ≤ tr.Rand k) (hr1 : tr.Rand k < 1)
    (hover : tr.MaxDelay < (tr.calcDelay n k).1) :
    (tr.calcDelay n k).1 - tr.MaxDelay < min tr.Jitter tr.MaxDelay := by
  simp only [Tryer.calcDelay] at hover ⊢
  set d1 : ℤ := if 0 < tr.Scale then truncQ ((tr.Delay : ℚ) * (1 + tr.Scale) ^ (n - 1))
      else tr.Delay with hd1
  set d2 : ℤ := if 0 < tr.MaxDelay ∧ tr.MaxDelay < d1 then tr.MaxDelay else d1 with hd2
  have hcap : d2 ≤ tr.MaxDelay := by
    rw [hd2]
    split_ifs with h2
    · omega
    · push_neg at h2
      have := h2 hM
      omega
  set j1 : ℤ := if d2 < tr.Jitter then d2 else tr.Jitter with hj1
  have hj1J : j1 ≤ tr.Jitter := by
    rw [hj1]; split_ifs with h3 <;> omega
  have hj1d2 : j1 ≤ d2 := by
    rw [hj1]; split_ifs with h3 <;> omega
  split_ifs at hover ⊢ with h4
  · have hjd := truncJitter_lt j1 (tr.Rand k) h4 hr1
    simp only [Prod.fst] at hover ⊢
    rw [lt_min_iff]
    constructor <;> linarith
  · simp only [Prod.fst] at hover
    linarith

/-! ## Facts about the attempt loop -/

/-- One unfolding of the fuel-indexed loop body. -/
theorem tryGo_succ {ε : Type} (tr : Tryer ε) (f cancel : Nat → Option ε) (fuel n k : Nat) :
    tryGo tr f cancel (fuel + 1) n k =
      match f n with
      | none => some (.ok, n + 1)
      | some err =>
        if 0 ≤ tr.Max ∧ tr.Max ≤ ((n + 1 : Nat) : Int) then
          some (.maxTries err, n + 1)
        else if tr.IsRetryable.elim false (fun p => !(p err)) then
          some (.unretryable err, n + 1)
        else
          match cancel (n + 1) with
          | some c => some (.contextError c, n + 1)
          | none => tryGo tr f cancel fuel (n + 1) (tr.calcDelay (n + 1) k).2 := rfl

/-- Running the loop through a block of failing, retryable, uncancelled
attempts: starting at attempt index `n` with `n + d = i`, the loop reaches
attempt index `i` having burned `d` units of fuel (with some number `k2`
of random draws made). -/
theorem tryGo_reach {ε : Type} (tr : Tryer ε) (f cancel : Nat → Option ε) (i : Nat)
    (hf : ∀ j, j < i → (f j).isSome)
    (hp : ∀ p, tr.IsRetryable = some p → ∀ j e, j < i → f j = some e → p e = true)
    (hb : ∀ j, j < i → tr.Max < 0 ∨ ((j : Int) + 1 < tr.Max))
    (hc : ∀ m, m ≤ i → cancel m = none) :
    ∀ d n k fuel, n + d = i →
      ∃ k2, tryGo tr f cancel (fuel + d) n k = tryGo tr f cancel fuel i k2 := by
  intro d
  induction d with
  | zero =>
    intro n k fuel h
    have hn : n = i := by omega
    subst hn
    exact ⟨k, rfl⟩
  | succ d ih =>
    intro n k fuel h
    have hni : n < i := by omega
    obtain ⟨e, he⟩ := Option.isSome_iff_exists.mp (hf n hni)
    have hfuel : fuel + (d + 1) = (fuel + d) + 1 := by omega
    rw [hfuel, tryGo_succ]
    simp only [he]
    have hb1 : ¬ (0 ≤ tr.Max ∧ tr.Max ≤ ((n + 1 : Nat) : Int)) := by
      rcases hb n hni with h1 | h1 <;> omega
    rw [if_neg hb1]
    have hp1 : tr.IsRetryable.elim false (fun p => !(p e)) = false := by
      cases hIR : tr.IsRetryable with
      | none => rfl
      | some p =>
        simp only [Option.elim]
        rw [hp p hIR n e hni he]
        rfl
    rw [if_neg (by simp [hp1])]
    obtain ⟨k2, hk2⟩ := ih (n + 1) (tr.calcDelay (n + 1) k).2 fuel (by omega)
    refine ⟨k2, ?_⟩
    rw [hc (n + 1) (by omega)]
    exact hk2

/-! ## Claims about the attempt loop -/

/-- C2: if the operation fails with retryable errors on attempt indices
`0 .. i-1` and succeeds on attempt index `i`, with `i` under the budget
(`Max < 0` or `i < Max`) and no cancellation, then `Try` makes exactly
`i + 1` invocations and returns nil; in particular success on the very
first call (`i = 0`) returns nil after one invocation. -/
theorem try_success {ε : Type} (tr : Tryer ε) (f cancel : Nat → Option ε) (i fuel : Nat)
    (hib : tr.Max < 0 ∨ (i : Int) < tr.Max)
    (hf : ∀ j, j < i → (f j).isSome)
    (hp : ∀ p, tr.IsRetryable = some p → ∀ j e, j < i → f j = some e → p e = true)
    (hs : f i = none)
    (hc : ∀ m, m ≤ i → cancel m = none)
    (hfuel : i < fuel) :
    tr.Try f cancel fuel = some (.ok, i + 1) := by
  have hb : ∀ j, j < i → tr.Max < 0 ∨ ((j : Int) + 1 < tr.Max) := by
    intro j hj
    rcases hib with h1 | h1
    · exact Or.inl h1
    · right; omega
  obtain ⟨k2, hk2⟩ := tryGo_reach tr f cancel i hf hp hb hc i 0 0 (fuel - i) (by omega)
  have hfe : (fuel - i) + i = fuel := by omega
  rw [Tryer.Try, ← hfe, hk2]
  obtain ⟨m, hm⟩ : ∃ m, fuel - i = m + 1 := ⟨fuel - i - 1, by omega⟩
  rw [hm, tryGo_succ]
  simp only [hs]

/-- C3: if the configured retryability predicate rejects the error of
attempt index `i` while the budget is not exhausted (`Max < 0` or
`i + 1 < Max`), and the earlier attempts failed with retryable errors
without cancellation, then `Try` returns `UnretryableError` wrapping that
exact error after exactly `i + 1` invocations, with no further wait or
attempt. -/
theorem try_unretryable {ε : Type} (tr : Tryer ε) (f cancel : Nat → Option ε)
    (i fuel : Nat) (p : ε → Bool) (e : ε)
    (hIR : tr.IsRetryable = some p)
    (hib : tr.Max < 0 ∨ (i : Int) + 1 < tr.Max)
    (hf : ∀ j, j < i → (f j).isSome)
    (hp : ∀ j ej, j < i → f j = some ej → p ej = true)
    (he : f i = some e)
    (hrej : p e = false)
    (hc : ∀ m, m ≤ i → cancel m = none)
    (hfuel : i < fuel) :
    tr.Try f cancel fuel = some (.unretryable e, i + 1) := by
  have hb : ∀ j, j < i → tr.Max < 0 ∨ ((j : Int) + 1 < tr.Max) := by
    intro j hj
    rcases hib with h1 | h1
    · exact Or.inl h1
    · right; omega
  have hp2 : ∀ q, tr.IsRetryable = some q → ∀ j ej, j < i → f j = some ej → q ej = true := by
    intro q hq j ej hj hfj
    rw [hIR] at hq
    cases hq
    exact hp j ej hj hfj
  obtain ⟨k2, hk2⟩ := tryGo_reach tr f cancel i hf hp2 hb hc i 0 0 (fuel - i) (by omega)
  have hfe : (fuel - i) + i = fuel := by omega
  rw [Tryer.Try, ← hfe, hk2]
  obtain ⟨m, hm⟩ : ∃ m, fuel - i = m + 1 := ⟨fuel - i - 1, by omega⟩
  rw [hm, tryGo_succ]
  simp only [he]
  rw [if_neg (by rcases hib with h1 | h1 <;> omega)]
  rw [if_pos (by rw [hIR]; simp only [Option.elim]; rw [hrej]; rfl)]

/-- C4: if the cancellation signal wins the race during the wait entered
after attempt index `i` (all attempts through `i` having failed with
retryable errors, under budget, with no earlier cancellation), then `Try`
returns `ContextError` wrapping the cancellation cause without invoking
the operation again: exactly `i + 1` invocations. -/
theorem try_cancelled {ε : Type} (tr : Tryer ε) (f cancel : Nat → Option ε)
    (i fuel : Nat) (c : ε)
    (hib : tr.Max < 0 ∨ (i : Int) + 1 < tr.Max)
    (hf : ∀ j, j ≤ i → (f j).isSome)
    (hp : ∀ p, tr.IsRetryable = some p → ∀ j e, j ≤ i → f j = some e → p e = true)
    (hc : ∀ m, m ≤ i → cancel m = none)
    (hcan : cancel (i + 1) = some c)
    (hfuel : i < fuel) :
    tr.Try f cancel fuel = some (.contextError c, i + 1) := by
  have hb : ∀ j, j < i → tr.Max < 0 ∨ ((j : Int) + 1 < tr.Max) := by
    intro j hj
    rcases hib with h1 | h1
    · exact Or.inl h1
    · right; omega
  obtain ⟨k2, hk2⟩ := tryGo_reach tr f cancel i (fun j hj => hf j (by omega))
    (fun p hq j e hj hfj => hp p hq j e (by omega) hfj) hb hc i 0 0 (fuel - i) (by omega)
  have hfe : (fuel - i) + i = fuel := by omega
  rw [Tryer.Try, ← hfe, hk2]
  obtain ⟨m, hm⟩ : ∃ m, fuel - i = m + 1 := ⟨fuel - i - 1, by omega⟩
  obtain ⟨e, he⟩ := Option.isSome_iff_exists.mp (hf i (by omega))
  rw [hm, tryGo_succ]
  simp only [he]
  rw [if_neg (by rcases hib with h1 | h1 <;> omega)]
  have hp1 : tr.IsRetryable.elim false (fun q => !(q e)) = false := by
    cases hIR : tr.IsRetryable with
    | none => rfl
    | some q =>
      simp only [Option.elim]
      rw [hp q hIR i e (by omega) he]
      rfl
  rw [if_neg (by simp [hp1])]
  rw [hcan]

/-- C1: with a nonnegative budget `Max`, an always-failing operation whose
errors the configured predicate (if any) accepts, and no cancellation,
`Try` invokes the operation exactly `max Max.toNat 1` times and returns
`MaxTriesError` wrapping the final attempt's error. -/
theorem try_alwaysFails {ε : Type} (tr : Tryer ε) (f cancel : Nat → Option ε) (fuel : Nat)
    (hM : 0 ≤ tr.Max)
    (hf : ∀ i, (f i).isSome)
    (hp : ∀ p, tr.IsRetryable = some p → ∀ i e, f i = some e → p e = true)
    (hc : ∀ m, cancel m = none)
    (hfuel : max tr.Max.toNat 1 ≤ fuel) :
    tr.Try f cancel fuel =
      (f (max tr.Max.toNat 1 - 1)).map
        (fun e => (.maxTries e, max tr.Max.toNat 1)) := by
  set M := max tr.Max.toNat 1 with hMdef
  have hch := max_choice tr.Max.toNat 1
  rw [← hMdef] at hch
  have hM1 : 1 ≤ M := hMdef ▸ le_max_right tr.Max.toNat 1
  have hb : ∀ j, j < M - 1 → tr.Max < 0 ∨ ((j : Int) + 1 < tr.Max) := by
    intro j hj
    right
    rcases hch with h1 | h1 <;> omega
  obtain ⟨k2, hk2⟩ := tryGo_reach tr f cancel (M - 1) (fun j _ => hf j)
    (fun p hq j e _ hfj => hp p hq j e hfj) hb (fun m _ => hc m)
    (M - 1) 0 0 (fuel - (M - 1)) (by omega)
  have hfe : (fuel - (M - 1)) + (M - 1) = fuel := by omega
  rw [Tryer.Try, ← hfe, hk2]
  obtain ⟨m, hm⟩ : ∃ m, fuel - (M - 1) = m + 1 := ⟨fuel - (M - 1) - 1, by omega⟩
  obtain ⟨e, he⟩ := Option.isSome_iff_exists.mp (hf (M - 1))
  rw [hm, tryGo_succ, he]
  simp only
  rw [if_pos (by refine ⟨hM, ?_⟩; rcases hch with h1 | h1 <;> omega)]
  have hi1 : M - 1 + 1 = M := by omega
  rw [hi1]
  rfl

/-- C9: when a failing attempt exhausts a nonnegative budget, `Try`
returns `MaxTriesError` rather than `UnretryableError`, independent of the
configured predicate's verdict on the final attempt's error: only the
errors of attempts that leave budget remaining (`i + 1 < Max`) need be
accepted, so with `Max = 0` or `Max = 1` the predicate is never consulted
at all. -/
theorem try_budgetBeforeUnretryable {ε : Type} (tr : Tryer ε) (f cancel : Nat → Option ε)
    (fuel : Nat) (p : ε → Bool)
    (hIR : tr.IsRetryable = some p)
    (hM : 0 ≤ tr.Max)
    (hf : ∀ i, (f i).isSome)
    (hp : ∀ (i : Nat) (e : ε), ((i : Int) + 1 < tr.Max) → f i = some e → p e = true)
    (hc : ∀ m, cancel m = none)
    (hfuel : max tr.Max.toNat 1 ≤ fuel) :
    tr.Try f cancel fuel =
      (f (max tr.Max.toNat 1 - 1)).map
        (fun e => (.maxTries e, max tr.Max.toNat 1)) := by
  set M := max tr.Max.toNat 1 with hMdef
  have hch := max_choice tr.Max.toNat 1
  rw [← hMdef] at hch
  have hM1 : 1 ≤ M := hMdef ▸ le_max_right tr.Max.toNat 1
  have hb : ∀ j, j < M - 1 → tr.Max < 0 ∨ ((j : Int) + 1 < tr.Max) := by
    intro j hj
    right
    rcases hch with h1 | h1 <;> omega
  have hp2 : ∀ q, tr.IsRetryable = some q → ∀ j e, j < M - 1 → f j = some e → q e = true := by
    intro q hq j e hj hfj
    rw [hIR] at hq
    cases hq
    refine hp j e ?_ hfj
    rcases hch with h1 | h1 <;> omega
  obtain ⟨k2, hk2⟩ := tryGo_reach tr f cancel (M - 1) (fun j _ => hf j)
    hp2 hb (fun m _ => hc m)
    (M - 1) 0 0 (fuel - (M - 1)) (by omega)
  have hfe : (fuel - (M - 1)) + (M - 1) = fuel := by omega
  rw [Tryer.Try, ← hfe, hk2]
  obtain ⟨m, hm⟩ : ∃ m, fuel - (M - 1) = m + 1 := ⟨fuel - (M - 1) - 1, by omega⟩
  obtain ⟨e, he⟩ := Option.isSome_iff_exists.mp (hf (M - 1))
  rw [hm, tryGo_succ, he]
  simp only
  rw [if_pos (by refine ⟨hM, ?_⟩; rcases hch with h1 | h1 <;> omega)]
  have hi1 : M - 1 + 1 = M := by omega
  rw [hi1]
  rfl

/-- With a negative budget, no amount of fuel can make the loop produce a
`maxTries` outcome from any attempt counter and draw counter. -/
theorem tryGo_noMaxTries {ε : Type} (tr : Tryer ε) (f cancel : Nat → Option ε)
    (h : tr.Max < 0) :
    ∀ fuel n k e m, tryGo tr f cancel fuel n k ≠ some (.maxTries e, m) := by
  intro fuel
  induction fuel with
  | zero =>
    intro n k e m
    simp [tryGo]
  | succ fuel ih =>
    intro n k e m
    rw [tryGo_succ]
    cases hfn : f n with
    | none => simp
    | some err =>
      simp only
      rw [if_neg (by intro hcon; omega)]
      split_ifs with h2
      · simp
      · cases hcn : cancel (n + 1) with
        | some c => simp
        | none => exact ih (n + 1) _ e m

/-- C8: with a negative `Max` (unlimited retries), `Try` never returns a
`MaxTriesError`, whatever the operation, race outcomes and fuel: it can
only terminate via success, an unretryable classification, or
cancellation. -/
theorem try_unlimited_noMaxTries {ε : Type} (tr : Tryer ε) (h : tr.Max < 0)
    (f cancel : Nat → Option ε) (fuel : Nat) (e : ε) (m : Nat) :
    tr.Try f cancel fuel ≠ some (.maxTries e, m) := by
  rw [Tryer.Try]
  exact tryGo_noMaxTries tr f cancel h fuel 0 0 e m

/-! ## Concrete witnesses -/


theorem calcDelay_nonneg_witness : 0 ≤ (trW6.calcDelay 1 0).1 :=
  calcDelay_nonneg trW6 1 0 (le_refl 1) (by decide) (by decide) (by decide)
    (by norm_num [trW6]) (by norm_num [trW6])


theorem calcDelay_ceiling_witness :
    (trW7.calcDelay 1 0).1 - trW7.MaxDelay < min trW7.Jitter trW7.MaxDelay :=
  calcDelay_ceiling trW7 1 0 (le_refl 1) (by decide) (by decide) (by decide)
    (by norm_num [trW7]) (by norm_num [trW7])
    (by norm_num [Tryer.calcDelay, truncQ, trW7])


theorem try_success_witness : trW2.Try fW2 (fun _ => none) 3 = some (.ok, 3) :=
  try_success trW2 fW2 (fun _ => none) 2 3 (Or.inr (by decide))
    (by intro j hj; simp [fW2, hj])
    (by intro p h j e hj hfj; cases h; rfl)
    (by simp [fW2])
    (fun _ _ => rfl) (by decide)


theorem try_unretryable_witness :
    trW3.Try (fun _ => some 5) (fun _ => none) 1 = some (.unretryable 5, 1) :=
  try_unretryable trW3 (fun _ => some 5) (fun _ => none) 0 1 (fun e => e == 0) 5
    rfl (Or.inl (by decide))
    (by intro j hj; exact absurd hj (Nat.not_lt_zero j))
    (by intro j ej hj hfj; exact absurd hj (Nat.not_lt_zero j))
    rfl rfl (fun _ _ => rfl) (by decide)


theorem try_cancelled_witness :
    trW4.Try (fun _ => some 3) cW4 1 = some (.contextError 7, 1) :=
  try_cancelled trW4 (fun _ => some 3) cW4 0 1 7 (Or.inl (by decide))
    (fun _ _ => rfl)
    (by intro p h; simp [trW4] at h)
    (by intro m hm; have hm0 : m = 0 := by omega
        subst hm0; rfl)
    rfl (by decide)


theorem try_alwaysFails_witness :
    trW1.Try (fun _ => some 9) (fun _ => none) 2 = some (.maxTries 9, 2) := by
  have h := try_alwaysFails trW1 (fun _ => some 9) (fun _ => none) 2 (by decide)
    (fun _ => rfl) (by intro p h; simp [trW1] at h) (fun _ => rfl) (by decide)
  simpa using h


theorem try_budgetBeforeUnretryable_witness :
    trW9.Try (fun _ => some 4) (fun _ => none) 1 = some (.maxTries 4, 1) := by
  have h := try_budgetBeforeUnretryable trW9 (fun _ => some 4) (fun _ => none) 1
    (fun _ => false) rfl (by decide) (fun _ => rfl)
    (by intro i e hi hfi; exfalso; have hM9 : trW9.Max = 1 := rfl; omega)
    (fun _ => rfl) (by decide)
  simpa using h


theorem try_unlimited_noMaxTries_witness :
    trW8.Try (fun _ => some 0) (fun _ => none) 3 ≠ some (.maxTries 0, 1) :=
  try_unlimited_noMaxTries trW8 (by decide) (fun _ => some 0) (fun _ => none) 3 0 1
